import Mathlib

/-!
Verification of the comment sentiment aggregation pipeline of the
youtube-analyzer repository.

The definitions below are a shallow embedding of the JavaScript/TypeScript
source.  Machine numbers that the source uses as integers are modelled as
`Nat`; the floating-point percentage computation `(count / total * 100).toFixed(1)`
is modelled over `ℚ` with `round`, and its NaN outcome at `total = 0` is
modelled as `Option.none`.  External effects (the remote classifier, the
database) are modelled as explicit oracle parameters and state threading.
-/

/-- Sentiment labels, the three string values "agree" / "disagree" / "neutral"
used throughout the source. -/
inductive Sentiment where
  | agree
  | disagree
  | neutral
deriving DecidableEq, Repr

/-- Test `isPre n h`: true when the character list `n` starts the list `h`
(the positional test underlying JavaScript `String.prototype.includes`). -/
def isPre : List Char → List Char → Bool
  | [], _ => true
  | _ :: _, [] => false
  | a :: as, b :: bs => a == b && isPre as bs

/-- Test `containsSub n h`: true when `n` occurs as a contiguous run inside `h`:
the semantics of JavaScript `hay.includes(needle)`. -/
def containsSub (needle : List Char) : List Char → Bool
  | [] => needle.isEmpty
  | c :: rest => isPre needle (c :: rest) || containsSub needle rest

/-- JavaScript `hay.includes(needle)` on strings. -/
def strIncludes (hay needle : String) : Bool :=
  containsSub needle.data hay.data

/-- JavaScript `s.toLowerCase()` (ASCII case map, character by character). -/
def toLowerStr (s : String) : String := ⟨s.data.map Char.toLower⟩

/-- JavaScript `s.toUpperCase()` (ASCII case map, character by character). -/
def toUpperStr (s : String) : String := ⟨s.data.map Char.toUpper⟩

/-- JavaScript `s.trim()`: strip whitespace from both ends. -/
def trimStr (s : String) : String :=
  ⟨((s.data.dropWhile Char.isWhitespace).reverse.dropWhile Char.isWhitespace).reverse⟩

/-- The positive word list of `fallbackSentimentAnalysis` (server, part_001
lines 85). -/
def positiveWords : List String := ["good", "great", "awesome", "love", "like"]

/-- The negative word list of `fallbackSentimentAnalysis` (server, part_001
line 86). -/
def negativeWords : List String := ["bad", "terrible", "hate", "dislike", "awful"]

/-- The `positiveCount` of `fallbackSentimentAnalysis`: how many positive words
occur in the lower-cased comment (part_001 lines 88-91). -/
def positiveCount (comment : String) : Nat :=
  (positiveWords.filter (fun w => strIncludes (toLowerStr comment) w)).length

/-- The `negativeCount` of `fallbackSentimentAnalysis` (part_001 lines 92-94). -/
def negativeCount (comment : String) : Nat :=
  (negativeWords.filter (fun w => strIncludes (toLowerStr comment) w)).length

/-- Function `fallbackSentimentAnalysis` (server, part_001 lines 84-99): keyword-count
heuristic used when the remote classifier fails. -/
def fallbackSentimentAnalysis (comment : String) : Sentiment :=
  if positiveCount comment > negativeCount comment then .agree
  else if negativeCount comment > positiveCount comment then .disagree
  else .neutral

/-- The larger positive word list of the `fallbackSentimentAnalysis` variant
in App.tsx (lines 107). -/
def positiveWordsApp : List String :=
  ["good", "great", "awesome", "love", "like", "cool", "nice", "amazing",
   "fantastic", "excellent", "best", "beautiful", "wonderful", "perfect"]

/-- The larger negative word list of the App.tsx variant (line 108). -/
def negativeWordsApp : List String :=
  ["bad", "terrible", "hate", "dislike", "awful", "gross", "cringe",
   "disgusting", "horrible", "worst", "sucks", "stupid", "trash"]

/-- The `fallbackSentimentAnalysis` variant in App.tsx (lines 106-121); same
algorithm, larger word lists. -/
def fallbackSentimentAnalysisApp (comment : String) : Sentiment :=
  let positiveCnt := (positiveWordsApp.filter (fun w => strIncludes (toLowerStr comment) w)).length
  let negativeCnt := (negativeWordsApp.filter (fun w => strIncludes (toLowerStr comment) w)).length
  if positiveCnt > negativeCnt then .agree
  else if negativeCnt > positiveCnt then .disagree
  else .neutral

/-- Parse of the remote response in `analyzeSentiment` (part_001 lines 68-72):
trim, upper-case, then test for the substrings "AGREE" and "DISAGREE" in that
order. -/
def parseLabel (text : String) : Sentiment :=
  let t := toUpperStr (trimStr text)
  if containsSub "AGREE".data t.data then .agree
  else if containsSub "DISAGREE".data t.data then .disagree
  else .neutral

/-- Outcome of one `model.generateContent` attempt: a response text, a
rate-limit error (HTTP status 429), or any other error. -/
inductive RemoteOutcome where
  | success (text : String)
  | rateLimited
  | failure
deriving DecidableEq

/-- Function `analyzeSentiment` (part_001 lines 52-82).  `oracle n` is the outcome of
the `n`-th remote attempt.  The second component of the result is the list of
delays (ms) slept before retries, in order: each rate-limited attempt with
retries left sleeps `delay` and recurses with `retries - 1` and `delay * 2`;
exhaustion or a non-retryable error falls back to
`fallbackSentimentAnalysis`. -/
def analyzeSentiment (oracle : Nat → RemoteOutcome) (comment : String) :
    Nat → Nat → Nat → Sentiment × List Nat
  | 0, _delay, attempt =>
    match oracle attempt with
    | .success text => (parseLabel text, [])
    | .failure => (fallbackSentimentAnalysis comment, [])
    | .rateLimited => (fallbackSentimentAnalysis comment, [])
  | r + 1, delay, attempt =>
    match oracle attempt with
    | .success text => (parseLabel text, [])
    | .failure => (fallbackSentimentAnalysis comment, [])
    | .rateLimited =>
      let rest := analyzeSentiment oracle comment r (delay * 2) (attempt + 1)
      (rest.1, delay :: rest.2)

/-- The `batchSize` default of the batched `rateLimiter` (App.tsx line 147). -/
def batchSize : Nat := 10

/-- The `delayBetweenBatches` default of the batched `rateLimiter`
(App.tsx line 147), also the per-comment delay of the sequential variant
(part_001 line 114), in milliseconds. -/
def delayBetweenBatches : Nat := 2000

/-- The batch decomposition performed by the loop of the batched `rateLimiter`
(App.tsx lines 149-150): `slice(i, i + batchSize)` for `i = 0, 10, 20, ...`. -/
def toBatches {α : Type} : List α → List (List α)
  | [] => []
  | c :: rest => ((c :: rest).take batchSize) :: toBatches ((c :: rest).drop batchSize)
termination_by l => l.length
decreasing_by simp [batchSize]; omega

/-- The batched `rateLimiter` (App.tsx lines 147-175).  `classify` abstracts
the per-comment `analyzeSentiment` call (which always yields a sentiment, by
fallback) together with the `catch` that maps a rejection to `neutral`.  The
first component is the sentiment list; the second is the list of inter-batch
delays actually slept, one `delayBetweenBatches` whenever `i + batchSize <
comments.length`. -/
def rateLimiter {α : Type} (classify : α → Sentiment) : List α → List Sentiment × List Nat
  | [] => ([], [])
  | c :: rest =>
    let l := c :: rest
    let batch := l.take batchSize
    let remaining := l.drop batchSize
    let batchResults := batch.map classify
    let tail := rateLimiter classify remaining
    (batchResults ++ tail.1,
      (if remaining.isEmpty then [] else [delayBetweenBatches]) ++ tail.2)
termination_by l => l.length
decreasing_by simp [batchSize]; omega

/-- The sequential `rateLimiter` of the server (part_001 lines 102-117): one
comment at a time, pushing the sentiment and sleeping 2000 ms after every
comment (including the last). -/
def rateLimiterSeq {α : Type} (classify : α → Sentiment) : List α → List Sentiment × List Nat
  | [] => ([], [])
  | c :: rest =>
    let s := classify c
    let tail := rateLimiterSeq classify rest
    (s :: tail.1, delayBetweenBatches :: tail.2)

/-- A fetched comment thread as used by the `/api/analyze` handler: the fields
of `comment.snippet.topLevelComment` that the pipeline reads.  The publish
timestamp is abstracted to its calendar month (`toLocaleString` with
`month: "short"`), the only part of it the pipeline uses. -/
structure CommentItem where
  commentId : String
  textDisplay : String
  authorDisplayName : String
  month : Fin 12
deriving DecidableEq

/-- A document of the `Comment` Mongo collection (part_001 lines 35-42),
timestamp again abstracted to its month. -/
structure StoredComment where
  videoId : String
  commentId : String
  maskedUsername : String
  comment : String
  sentiment : Sentiment
  month : Fin 12
deriving DecidableEq

/-- The deduplication store: the `Comment` collection, in insertion order.
`Comment.findOne` returns the first matching document. -/
abbrev Store := List StoredComment

/-- The lookup `Comment.findOne` by commentId (part_001 line 202). -/
def findOne (store : Store) (id : String) : Option StoredComment :=
  store.find? (fun e => e.commentId == id)

/-- Function `maskUsername` (part_001 lines 119-121): first character followed by one
asterisk per remaining character. -/
def maskUsername (u : String) : String :=
  ⟨u.data.take 1 ++ List.replicate (u.length - 1) '*'⟩

/-- The `analysisResults` accumulator (part_001 lines 191-195). -/
structure Counts where
  agree : Nat
  disagree : Nat
  neutral : Nat
deriving DecidableEq

/-- Increment of the sentiment counter, `analysisResults[sentiment]++`. -/
def Counts.incr (c : Counts) : Sentiment → Counts
  | .agree => { c with agree := c.agree + 1 }
  | .disagree => { c with disagree := c.disagree + 1 }
  | .neutral => { c with neutral := c.neutral + 1 }

/-- Total per `Object.values(analysisResults).reduce((a, b) => a + b, 0)`
(part_001 line 235). -/
def Counts.total (c : Counts) : Nat := c.agree + c.disagree + c.neutral

/-- The monthly distribution, keyed by month index. -/
abbrev Distribution := Fin 12 → Nat

/-- Function `allMonths` (part_001 lines 123-143): every month initialized to 0. -/
def allMonths : Distribution := fun _ => 0

/-- Increment of a month bucket, `distribution[month]++`. -/
def bump (d : Distribution) (m : Fin 12) : Distribution :=
  fun j => if j = m then d j + 1 else d j

/-- The canonical three-letter month names (part_001 lines 124-137). -/
def monthName (i : Fin 12) : String :=
  ["Jan", "Feb", "Mar", "Apr", "May", "Jun",
   "Jul", "Aug", "Sep", "Oct", "Nov", "Dec"].getD i.val ""

/-- Function `sortMonths` (part_001 lines 145-165): re-emit the distribution in the
fixed canonical month order. -/
def sortMonths (d : Distribution) : List (String × Nat) :=
  (List.finRange 12).map fun i => (monthName i, d i)

/-- Total count held by a distribution. -/
def distTotal (d : Distribution) : Nat := ((List.finRange 12).map d).sum

/-- State threaded through the dedup/aggregation loop of the handler
(part_001 lines 199-233). -/
structure LoopState where
  counts : Counts
  dist : Distribution
  store : Store

/-- The dedup/aggregation loop of the `/api/analyze` handler (part_001 lines
199-233), paired with the fresh sentiment `sentiments[i]` for each comment.
A cache hit counts the stored sentiment and stored month; a miss counts the
fresh sentiment and the comment's month and `Comment.create`s the document.
`saveOk` tells whether `Comment.create` succeeds for a given comment id; a
rejected `create` propagates to the handler's catch-all (`.error`, carrying
the store as left by the already-completed iterations). -/
def processComments (saveOk : String → Bool) (videoId : String) :
    List (CommentItem × Sentiment) → LoopState → Except Store LoopState
  | [], st => .ok st
  | (c, fresh) :: rest, st =>
    match findOne st.store c.commentId with
    | some existing =>
      processComments saveOk videoId rest
        { counts := st.counts.incr existing.sentiment
          dist := bump st.dist existing.month
          store := st.store }
    | none =>
      if saveOk c.commentId then
        processComments saveOk videoId rest
          { counts := st.counts.incr fresh
            dist := bump st.dist c.month
            store := st.store ++
              [{ videoId := videoId
                 commentId := c.commentId
                 maskedUsername := maskUsername c.authorDisplayName
                 comment := c.textDisplay
                 sentiment := fresh
                 month := c.month }] }
      else .error st.store

/-- Rounding `(x).toFixed(1)` on an exact value: round to one decimal place
(ties away from zero for the nonnegative values arising here). -/
def toFixed1 (x : ℚ) : ℚ := (round (10 * x) : ℤ) / 10

/-- The `sentimentAnalysis` percentages (part_001 lines 236-240):
`(count / total * 100).toFixed(1)` for each category.  When `total = 0` the
source computes `0/0 = NaN`; the NaN triple is modelled as `none`. -/
def percentagesOf (c : Counts) : Option (ℚ × ℚ × ℚ) :=
  if c.total = 0 then none
  else some
    (toFixed1 ((c.agree : ℚ) / (c.total : ℚ) * 100),
     toFixed1 ((c.disagree : ℚ) / (c.total : ℚ) * 100),
     toFixed1 ((c.neutral : ℚ) / (c.total : ℚ) * 100))

/-- The response of the `/api/analyze` handler: 400 for an invalid URL, 404
when the upstream returns no `items` field, 500 from the catch-all, or the
JSON payload `{ sentimentAnalysis, totalComments, distribution }`. -/
inductive Response where
  | invalidUrl
  | noComments
  | serverError
  | ok (sentimentAnalysis : Option (ℚ × ℚ × ℚ)) (totalComments : Nat)
       (distribution : List (String × Nat))
deriving DecidableEq

/-- Observable outcome of one `/api/analyze` run: the HTTP response, the
number of `analyzeSentiment` invocations issued by `rateLimiter` (each such
invocation performs at least one remote `model.generateContent` attempt), and
the deduplication store after the run. -/
structure RunResult where
  response : Response
  classifierInvocations : Nat
  finalStore : Store
deriving DecidableEq

/-- The `/api/analyze` handler (part_001 lines 167-253).  `validUrl` models
whether `extractVideoId` succeeded; `items` is `response.data.items` from the
comment source, `none` when the field is absent (the only case the 404 guard
catches — an empty array is truthy in JavaScript and falls through);
`classify` abstracts the sentiment `analyzeSentiment` resolves for a comment
text.  Note that `rateLimiter` runs over the whole comment list before the
deduplication loop, so every comment triggers a classifier invocation even
when it is already stored. -/
def analyze (validUrl : Bool) (items : Option (List CommentItem))
    (classify : String → Sentiment) (saveOk : String → Bool)
    (videoId : String) (store0 : Store) : RunResult :=
  if validUrl = false then
    { response := .invalidUrl, classifierInvocations := 0, finalStore := store0 }
  else
    match items with
    | none => { response := .noComments, classifierInvocations := 0, finalStore := store0 }
    | some comments =>
      let sentiments := (rateLimiterSeq (fun c => classify c.textDisplay) comments).1
      match processComments saveOk videoId (comments.zip sentiments)
          { counts := ⟨0, 0, 0⟩, dist := allMonths, store := store0 } with
      | .error s =>
        { response := .serverError
          classifierInvocations := comments.length
          finalStore := s }
      | .ok st =>
        { response := .ok (percentagesOf st.counts) st.counts.total (sortMonths st.dist)
          classifierInvocations := comments.length
          finalStore := st.store }

/-! ### Substring lemmas -/

theorem containsSub_of_isPre_append {pre n : List Char} :
    ∀ {h : List Char}, isPre (pre ++ n) h = true → containsSub n h = true := by
  induction pre with
  | nil =>
    intro h hp
    cases h with
    | nil =>
      cases n with
      | nil => rfl
      | cons a as => simp [isPre] at hp
    | cons c r =>
      simp only [List.nil_append] at hp
      simp [containsSub, hp]
  | cons p ps ih =>
    intro h hp
    cases h with
    | nil => simp [isPre] at hp
    | cons c r =>
      simp only [List.cons_append, isPre, Bool.and_eq_true] at hp
      have := ih hp.2
      simp [containsSub, this]

theorem containsSub_drop_left {pre n : List Char} :
    ∀ {h : List Char}, containsSub (pre ++ n) h = true → containsSub n h = true := by
  intro h
  induction h with
  | nil =>
    intro hp
    simp only [containsSub, List.isEmpty_iff, List.append_eq_nil] at hp
    simp [containsSub, hp.2]
  | cons c r ih =>
    intro hp
    simp only [containsSub, Bool.or_eq_true] at hp
    rcases hp with hp | hp
    · exact containsSub_of_isPre_append hp
    · have := ih hp
      simp [containsSub, this]

theorem containsSub_agree_of_disagree {h : List Char}
    (hd : containsSub "DISAGREE".data h = true) :
    containsSub "AGREE".data h = true := by
  have : "DISAGREE".data = "DIS".data ++ "AGREE".data := rfl
  rw [this] at hd
  exact containsSub_drop_left hd

theorem parseLabel_ne_disagree (text : String) : parseLabel text ≠ .disagree := by
  unfold parseLabel
  set t := toUpperStr (trimStr text) with ht
  by_cases h1 : containsSub "AGREE".data t.data = true
  · simp [h1]
  · have h2 : containsSub "DISAGREE".data t.data ≠ true := by
      intro hd
      exact h1 (containsSub_agree_of_disagree hd)
    simp [h1, h2]

/-! ### `analyzeSentiment` step lemmas -/

theorem analyzeSentiment_success {oracle : Nat → RemoteOutcome} {a : Nat} {t : String}
    (h : oracle a = .success t) (c : String) (r d : Nat) :
    analyzeSentiment oracle c r d a = (parseLabel t, []) := by
  cases r <;> simp only [analyzeSentiment, h]

theorem analyzeSentiment_failure {oracle : Nat → RemoteOutcome} {a : Nat}
    (h : oracle a = .failure) (c : String) (r d : Nat) :
    analyzeSentiment oracle c r d a = (fallbackSentimentAnalysis c, []) := by
  cases r <;> simp only [analyzeSentiment, h]

theorem analyzeSentiment_exhausted {oracle : Nat → RemoteOutcome} {a : Nat}
    (h : oracle a = .rateLimited) (c : String) (d : Nat) :
    analyzeSentiment oracle c 0 d a = (fallbackSentimentAnalysis c, []) := by
  simp only [analyzeSentiment, h]

theorem analyzeSentiment_retry {oracle : Nat → RemoteOutcome} {a : Nat}
    (h : oracle a = .rateLimited) (c : String) (r d : Nat) :
    analyzeSentiment oracle c (r + 1) d a =
      ((analyzeSentiment oracle c r (d * 2) (a + 1)).1,
        d :: (analyzeSentiment oracle c r (d * 2) (a + 1)).2) := by
  simp only [analyzeSentiment, h]

theorem analyzeSentiment_fst_disagree_is_fallback
    (oracle : Nat → RemoteOutcome) (c : String) :
    ∀ (r d a : Nat), (analyzeSentiment oracle c r d a).1 = .disagree →
      (analyzeSentiment oracle c r d a).1 = fallbackSentimentAnalysis c := by
  intro r
  induction r with
  | zero =>
    intro d a hdis
    match h : oracle a with
    | .success t =>
      rw [analyzeSentiment_success h] at hdis ⊢
      exact absurd hdis (parseLabel_ne_disagree t)
    | .failure => rw [analyzeSentiment_failure h]
    | .rateLimited => rw [analyzeSentiment_exhausted h]
  | succ r ih =>
    intro d a hdis
    match h : oracle a with
    | .success t =>
      rw [analyzeSentiment_success h] at hdis ⊢
      exact absurd hdis (parseLabel_ne_disagree t)
    | .failure => rw [analyzeSentiment_failure h]
    | .rateLimited =>
      rw [analyzeSentiment_retry h] at hdis ⊢
      exact ih (d * 2) (a + 1) hdis

/-- C5: the fallback classifier lower-cases the text, counts positive and
negative keyword hits by substring containment (not token-bounded: "like"
matches inside "likely"), returns agree when positives outnumber negatives,
disagree in the opposite case, neutral otherwise (including the 0-0 tie);
the three reference inputs classify as agree / disagree / neutral, in both
the server variant and the App.tsx variant. -/
theorem fallback_classifier_spec :
    (∀ text : String,
      (fallbackSentimentAnalysis text = .agree ↔ negativeCount text < positiveCount text) ∧
      (fallbackSentimentAnalysis text = .disagree ↔ positiveCount text < negativeCount text) ∧
      (fallbackSentimentAnalysis text = .neutral ↔ positiveCount text = negativeCount text)) ∧
    fallbackSentimentAnalysis "I love this, it\x27s great" = .agree ∧
    fallbackSentimentAnalysis "this is terrible and awful" = .disagree ∧
    fallbackSentimentAnalysis "the video is 10 minutes long" = .neutral ∧
    fallbackSentimentAnalysisApp "I love this, it\x27s great" = .agree ∧
    fallbackSentimentAnalysisApp "this is terrible and awful" = .disagree ∧
    fallbackSentimentAnalysisApp "the video is 10 minutes long" = .neutral ∧
    strIncludes (toLowerStr "likely") "like" = true := by
  refine ⟨fun text => ?_, by decide, by decide, by decide, by decide, by decide,
    by decide, by decide⟩
  unfold fallbackSentimentAnalysis
  split_ifs with h1 h2 <;> refine ⟨?_, ?_, ?_⟩ <;> simp <;> omega

/-- C10: the per-comment remote label parse can never produce `disagree`:
any response containing "DISAGREE" also contains "AGREE" and is parsed as
`agree` — including the exact response "DISAGREE" — so a `disagree` sentiment
out of `analyzeSentiment` can only come from the fallback classifier. -/
theorem remote_parse_never_disagree :
    (∀ text : String, parseLabel text ≠ .disagree) ∧
    parseLabel "DISAGREE" = .agree ∧
    (∀ (oracle : Nat → RemoteOutcome) (c : String) (r d a : Nat),
      (analyzeSentiment oracle c r d a).1 = .disagree →
      (analyzeSentiment oracle c r d a).1 = fallbackSentimentAnalysis c) :=
  ⟨parseLabel_ne_disagree, by decide,
    fun oracle c r d a h => analyzeSentiment_fst_disagree_is_fallback oracle c r d a h⟩

/-- Witness for C10: a concrete `disagree` result (non-retryable failure on
the comment "bad") indeed equals the fallback classification. -/
theorem remote_parse_never_disagree_witness :
    (analyzeSentiment (fun _ => RemoteOutcome.failure) "bad" 3 2000 0).1 =
      fallbackSentimentAnalysis "bad" :=
  remote_parse_never_disagree.2.2 (fun _ => RemoteOutcome.failure) "bad" 3 2000 0 (by decide)

/-! ### Scheduler lemmas -/

theorem rateLimiterSeq_fst {α : Type} (f : α → Sentiment) (l : List α) :
    (rateLimiterSeq f l).1 = l.map f := by
  induction l with
  | nil => rfl
  | cons c rest ih => simp [rateLimiterSeq, ih]

theorem rateLimiter_fst_bound {α : Type} (f : α → Sentiment) :
    ∀ (n : Nat) (l : List α), l.length ≤ n → (rateLimiter f l).1 = l.map f := by
  intro n
  induction n with
  | zero =>
    intro l h
    have : l = [] := List.eq_nil_of_length_eq_zero (Nat.le_zero.mp h)
    subst this
    simp [rateLimiter, toBatches]
  | succ n ih =>
    intro l h
    cases l with
    | nil => simp [rateLimiter, toBatches]
    | cons c rest =>
      have hrem : ((c :: rest).drop batchSize).length ≤ n := by
        simp only [List.length_drop, List.length_cons, batchSize]
        simp only [List.length_cons] at h
        omega
      simp only [rateLimiter]
      rw [ih _ hrem, ← List.map_append, List.take_append_drop]

theorem toBatches_eq_cons {α : Type} {l : List α} (h : l ≠ []) :
    toBatches l = l.take batchSize :: toBatches (l.drop batchSize) := by
  cases l with
  | nil => exact absurd rfl h
  | cons c rest => simp only [toBatches]

theorem toBatches_join {α : Type} :
    ∀ (n : Nat) (l : List α), l.length ≤ n → (toBatches l).flatten = l := by
  intro n
  induction n with
  | zero =>
    intro l h
    have : l = [] := List.eq_nil_of_length_eq_zero (Nat.le_zero.mp h)
    subst this
    simp [rateLimiter, toBatches]
  | succ n ih =>
    intro l h
    cases l with
    | nil => simp [rateLimiter, toBatches]
    | cons c rest =>
      have hrem : ((c :: rest).drop batchSize).length ≤ n := by
        simp only [List.length_drop, List.length_cons, batchSize]
        simp only [List.length_cons] at h
        omega
      simp only [toBatches, List.flatten]
      rw [ih _ hrem, List.take_append_drop]

theorem toBatches_mem {α : Type} :
    ∀ (n : Nat) (l : List α) (b : List α), l.length ≤ n → b ∈ toBatches l →
      b ≠ [] ∧ b.length ≤ batchSize := by
  intro n
  induction n with
  | zero =>
    intro l b h hb
    have : l = [] := List.eq_nil_of_length_eq_zero (Nat.le_zero.mp h)
    subst this
    simp [toBatches] at hb
  | succ n ih =>
    intro l b h hb
    cases l with
    | nil => simp [toBatches] at hb
    | cons c rest =>
      have hrem : ((c :: rest).drop batchSize).length ≤ n := by
        simp only [List.length_drop, List.length_cons, batchSize]
        simp only [List.length_cons] at h
        omega
      rw [toBatches_eq_cons (List.cons_ne_nil c rest)] at hb
      rcases List.mem_cons.mp hb with hb | hb
      · subst hb
        constructor
        · simp [batchSize]
        · simp [List.length_take]
      · exact ih _ b hrem hb

theorem rateLimiter_fst_join {α : Type} (f : α → Sentiment) :
    ∀ (n : Nat) (l : List α), l.length ≤ n →
      (rateLimiter f l).1 = ((toBatches l).map (List.map f)).flatten := by
  intro n
  induction n with
  | zero =>
    intro l h
    have : l = [] := List.eq_nil_of_length_eq_zero (Nat.le_zero.mp h)
    subst this
    simp [rateLimiter, toBatches]
  | succ n ih =>
    intro l h
    cases l with
    | nil => simp [rateLimiter, toBatches]
    | cons c rest =>
      have hrem : ((c :: rest).drop batchSize).length ≤ n := by
        simp only [List.length_drop, List.length_cons, batchSize]
        simp only [List.length_cons] at h
        omega
      rw [toBatches_eq_cons (List.cons_ne_nil c rest)]
      simp only [rateLimiter, List.map_cons, List.flatten]
      rw [ih _ hrem]

theorem toBatches_length_pos {α : Type} {l : List α} (h : l ≠ []) :
    1 ≤ (toBatches l).length := by
  rw [toBatches_eq_cons h]
  simp

theorem rateLimiter_snd_batches {α : Type} (f : α → Sentiment) :
    ∀ (n : Nat) (l : List α), l.length ≤ n →
      (rateLimiter f l).2 =
        List.replicate ((toBatches l).length - 1) delayBetweenBatches := by
  intro n
  induction n with
  | zero =>
    intro l h
    have : l = [] := List.eq_nil_of_length_eq_zero (Nat.le_zero.mp h)
    subst this
    simp [rateLimiter, toBatches]
  | succ n ih =>
    intro l h
    cases l with
    | nil => simp [rateLimiter, toBatches]
    | cons c rest =>
      have hrem : ((c :: rest).drop batchSize).length ≤ n := by
        simp only [List.length_drop, List.length_cons, batchSize]
        simp only [List.length_cons] at h
        omega
      rw [toBatches_eq_cons (List.cons_ne_nil c rest)]
      simp only [rateLimiter]
      rw [ih _ hrem]
      by_cases hremnil : (c :: rest).drop batchSize = []
      · rw [hremnil]
        simp [toBatches]
      · have hpos := toBatches_length_pos hremnil
        simp only [List.isEmpty_iff, hremnil, if_neg, List.length_cons]
        rw [show (toBatches ((c :: rest).drop batchSize)).length + 1 - 1
            = ((toBatches ((c :: rest).drop batchSize)).length - 1) + 1 by omega]
        simp [List.replicate_succ]

/-- C6: the rate-limited scheduler returns exactly one sentiment per input
comment, in input order (the result is the pointwise classification of the
input list); this holds for the batched scheduler of App.tsx and for the
sequential scheduler of the server, whose delays affect timing only. -/
theorem scheduler_preserves_length_and_order {α : Type} (classify : α → Sentiment)
    (comments : List α) :
    (rateLimiter classify comments).1 = comments.map classify ∧
    (rateLimiter classify comments).1.length = comments.length ∧
    (rateLimiterSeq classify comments).1 = comments.map classify ∧
    (rateLimiterSeq classify comments).1.length = comments.length := by
  have hb := rateLimiter_fst_bound classify comments.length comments le_rfl
  have hs := rateLimiterSeq_fst classify comments
  exact ⟨hb, by rw [hb, List.length_map], hs, by rw [hs, List.length_map]⟩

/-- C9: the batched scheduler splits the comment list into consecutive
batches of 10 (every batch nonempty and of size at most 10, their
concatenation the input), classifies batch by batch, and sleeps one fixed
2000 ms delay per batch that still has comments after it (so batches minus
one delays, none after the final batch); a 25-comment list yields exactly
the batch sizes 10, 10, 5 and exactly two delays. -/
theorem batch_partitioning_spec {α : Type} (classify : α → Sentiment) (l : List α) :
    (toBatches l).flatten = l ∧
    (∀ b ∈ toBatches l, b ≠ [] ∧ b.length ≤ batchSize) ∧
    (rateLimiter classify l).1 = ((toBatches l).map (List.map classify)).flatten ∧
    (rateLimiter classify l).2 =
      List.replicate ((toBatches l).length - 1) delayBetweenBatches ∧
    (l.length = 25 →
      (toBatches l).map List.length = [10, 10, 5] ∧
      (rateLimiter classify l).2 = [delayBetweenBatches, delayBetweenBatches]) := by
  refine ⟨toBatches_join l.length l le_rfl,
    fun b hb => toBatches_mem l.length l b le_rfl hb,
    rateLimiter_fst_join classify l.length l le_rfl,
    rateLimiter_snd_batches classify l.length l le_rfl,
    fun h25 => ?_⟩
  have h1 : l ≠ [] := by
    intro e
    rw [e] at h25
    simp at h25
  have hd1 : (l.drop batchSize).length = 15 := by
    simp [List.length_drop, h25, batchSize]
  have h2 : l.drop batchSize ≠ [] := by
    intro e
    rw [e] at hd1
    simp at hd1
  have hd2 : ((l.drop batchSize).drop batchSize).length = 5 := by
    simp [List.length_drop, h25, batchSize]
  have h3 : (l.drop batchSize).drop batchSize ≠ [] := by
    intro e
    rw [e] at hd2
    simp at hd2
  have hd3 : (((l.drop batchSize).drop batchSize).drop batchSize).length = 0 := by
    simp [List.length_drop, h25, batchSize]
  have h4 : ((l.drop batchSize).drop batchSize).drop batchSize = [] :=
    List.eq_nil_of_length_eq_zero hd3
  have hshape : toBatches l =
      [l.take batchSize, (l.drop batchSize).take batchSize,
        ((l.drop batchSize).drop batchSize).take batchSize] := by
    rw [toBatches_eq_cons h1, toBatches_eq_cons h2, toBatches_eq_cons h3, h4]
    simp [toBatches]
  constructor
  · rw [hshape]
    simp [List.length_take, h25, hd1, hd2, batchSize]
  · rw [rateLimiter_snd_batches classify l.length l le_rfl, hshape]
    rfl

/-- Witness for C9: a concrete 25-element list is split into batches of
sizes 10, 10, 5 with exactly two 2000 ms inter-batch delays. -/
theorem batch_partitioning_spec_witness :
    (toBatches (List.range 25)).map List.length = [10, 10, 5] ∧
    (rateLimiter (fun _ => Sentiment.neutral) (List.range 25)).2 =
      [delayBetweenBatches, delayBetweenBatches] :=
  (batch_partitioning_spec (fun _ => Sentiment.neutral) (List.range 25)).2.2.2.2 (by simp)

/-- C4: a rate-limited call is retried with delays 2000, 4000, 8000 ms
(doubling, up to 3 retries); failing twice retryably then succeeding yields
the remote-derived sentiment with exactly the first two delays; exhaustion or
a non-retryable failure yields the fallback sentiment, and the call always
returns a sentiment (never aborts). -/
theorem retry_backoff_spec (oracle : Nat → RemoteOutcome) (c t : String) :
    (oracle 0 = .rateLimited → oracle 1 = .rateLimited → oracle 2 = .success t →
      analyzeSentiment oracle c 3 2000 0 = (parseLabel t, [2000, 4000])) ∧
    ((∀ i, oracle i = .rateLimited) →
      analyzeSentiment oracle c 3 2000 0 = (fallbackSentimentAnalysis c, [2000, 4000, 8000])) ∧
    (oracle 0 = .failure →
      analyzeSentiment oracle c 3 2000 0 = (fallbackSentimentAnalysis c, [])) := by
  refine ⟨fun h0 h1 h2 => ?_, fun hall => ?_, fun h0 => ?_⟩
  · rw [show (3 : Nat) = 2 + 1 from rfl, analyzeSentiment_retry h0,
      show (2 : Nat) = 1 + 1 from rfl, analyzeSentiment_retry h1,
      analyzeSentiment_success h2]
  · rw [show (3 : Nat) = 2 + 1 from rfl, analyzeSentiment_retry (hall 0),
      show (2 : Nat) = 1 + 1 from rfl, analyzeSentiment_retry (hall 1),
      show (1 : Nat) = 0 + 1 from rfl, analyzeSentiment_retry (hall 2),
      analyzeSentiment_exhausted (hall 3)]
  · rw [analyzeSentiment_failure h0]

/-- Witness for C4: with a concrete oracle that rate-limits twice then
answers "AGREE", the comment "x" (whose fallback would be neutral) is
classified agree with delays 2000 and 4000. -/
theorem retry_backoff_spec_witness :
    analyzeSentiment (fun i => if i < 2 then .rateLimited else .success "AGREE") "x" 3 2000 0 =
      (Sentiment.agree, [2000, 4000]) := by
  have h := (retry_backoff_spec (fun i => if i < 2 then .rateLimited else .success "AGREE")
    "x" "AGREE").1 (by decide) (by decide) (by decide)
  rw [h]
  decide

/-! ### Aggregation lemmas -/

theorem Counts.total_incr (c : Counts) (s : Sentiment) :
    (c.incr s).total = c.total + 1 := by
  cases s <;> simp [Counts.incr, Counts.total] <;> omega

theorem sum_map_bump (d : Distribution) (m : Fin 12) :
    ∀ (l : List (Fin 12)), m ∈ l → l.Nodup →
      (l.map (bump d m)).sum = (l.map d).sum + 1 := by
  intro l
  induction l with
  | nil => intro hm; simp at hm
  | cons a t ih =>
    intro hm hn
    rcases List.nodup_cons.mp hn with ⟨hna, hnt⟩
    rcases List.mem_cons.mp hm with he | ht
    · subst he
      have hmap : t.map (bump d m) = t.map d := by
        apply List.map_congr_left
        intro j hj
        have hj2 : j ≠ m := fun e => hna (e ▸ hj)
        simp only [bump, if_neg hj2]
      have hb : bump d m m = d m + 1 := by simp [bump]
      simp only [List.map_cons, List.sum_cons, hmap, hb]
      omega
    · have hne : a ≠ m := fun e => hna (e ▸ ht)
      have hb : bump d m a = d a := by simp only [bump, if_neg hne]
      simp only [List.map_cons, List.sum_cons, hb, ih ht hnt]
      omega

theorem distTotal_bump (d : Distribution) (m : Fin 12) :
    distTotal (bump d m) = distTotal d + 1 :=
  sum_map_bump d m (List.finRange 12) (List.mem_finRange m) (List.nodup_finRange 12)

theorem sortMonths_fst (d : Distribution) :
    (sortMonths d).map Prod.fst =
      ["Jan", "Feb", "Mar", "Apr", "May", "Jun",
       "Jul", "Aug", "Sep", "Oct", "Nov", "Dec"] := by
  unfold sortMonths
  rw [List.map_map]
  exact (by decide :
    (List.finRange 12).map monthName =
      ["Jan", "Feb", "Mar", "Apr", "May", "Jun",
       "Jul", "Aug", "Sep", "Oct", "Nov", "Dec"])

theorem sortMonths_snd (d : Distribution) :
    (sortMonths d).map Prod.snd = (List.finRange 12).map d := by
  simp [sortMonths, List.map_map, Function.comp]

theorem sortMonths_length (d : Distribution) : (sortMonths d).length = 12 := by
  simp [sortMonths]

theorem findOne_cons_pos {a : StoredComment} {s : Store} {id : String}
    (h : (a.commentId == id) = true) : findOne (a :: s) id = some a :=
  List.find?_cons_of_pos s h

theorem findOne_cons_neg {a : StoredComment} {s : Store} {id : String}
    (h : ¬(a.commentId == id) = true) : findOne (a :: s) id = findOne s id :=
  List.find?_cons_of_neg s h

theorem findOne_append_of_some {id : String} {e : StoredComment} :
    ∀ {s : Store}, findOne s id = some e → ∀ (t : Store), findOne (s ++ t) id = some e := by
  intro s
  induction s with
  | nil => intro h; simp [findOne] at h
  | cons a s ih =>
    intro h t
    by_cases hpa : (a.commentId == id) = true
    · rw [findOne_cons_pos hpa] at h
      rw [List.cons_append, findOne_cons_pos hpa]
      exact h
    · rw [findOne_cons_neg hpa] at h
      rw [List.cons_append, findOne_cons_neg hpa]
      exact ih h t

theorem findOne_append_of_none {id : String} :
    ∀ {s : Store}, findOne s id = none → ∀ (t : Store), findOne (s ++ t) id = findOne t id := by
  intro s
  induction s with
  | nil => intro h t; simp
  | cons a s ih =>
    intro h t
    by_cases hpa : (a.commentId == id) = true
    · rw [findOne_cons_pos hpa] at h
      exact absurd h (by simp)
    · rw [findOne_cons_neg hpa] at h
      rw [List.cons_append, findOne_cons_neg hpa]
      exact ih h t

theorem findOne_singleton_self {e : StoredComment} {id : String} (h : e.commentId = id) :
    findOne [e] id = some e :=
  findOne_cons_pos (by simp [h])

theorem processComments_total (saveOk : String → Bool) (vid : String) :
    ∀ (l : List (CommentItem × Sentiment)) (st st' : LoopState),
      processComments saveOk vid l st = .ok st' →
      st'.counts.total = st.counts.total + l.length ∧
      distTotal st'.dist = distTotal st.dist + l.length := by
  intro l
  induction l with
  | nil =>
    intro st st' h
    simp only [processComments, Except.ok.injEq] at h
    subst h
    simp
  | cons p rest ih =>
    intro st st' h
    obtain ⟨c, fresh⟩ := p
    cases hfind : findOne st.store c.commentId with
    | some existing =>
      simp only [processComments, hfind] at h
      have hr := ih _ _ h
      refine ⟨?_, ?_⟩
      · rw [hr.1]
        simp only [Counts.total_incr, List.length_cons]
        omega
      · rw [hr.2]
        simp only [distTotal_bump, List.length_cons]
        omega
    | none =>
      simp only [processComments, hfind] at h
      by_cases hsave : saveOk c.commentId = true
      · rw [if_pos hsave] at h
        have hr := ih _ _ h
        refine ⟨?_, ?_⟩
        · rw [hr.1]
          simp only [Counts.total_incr, List.length_cons]
          omega
        · rw [hr.2]
          simp only [distTotal_bump, List.length_cons]
          omega
      · rw [if_neg hsave] at h
        exact absurd h (by simp)

theorem processComments_ok_of_saveOk (vid : String) :
    ∀ (l : List (CommentItem × Sentiment)) (st : LoopState),
      ∃ st', processComments (fun _ => true) vid l st = .ok st' := by
  intro l
  induction l with
  | nil => exact fun st => ⟨st, rfl⟩
  | cons p rest ih =>
    intro st
    obtain ⟨c, fresh⟩ := p
    cases hfind : findOne st.store c.commentId with
    | some existing =>
      obtain ⟨st', hst'⟩ := ih _
      exact ⟨st', by simp only [processComments, hfind]; exact hst'⟩
    | none =>
      obtain ⟨st', hst'⟩ := ih _
      exact ⟨st', by simp only [processComments, hfind, if_true]; exact hst'⟩

theorem processComments_store_extends (saveOk : String → Bool) (vid : String) :
    ∀ (l : List (CommentItem × Sentiment)) (st st' : LoopState),
      processComments saveOk vid l st = .ok st' →
      ∃ t, st'.store = st.store ++ t := by
  intro l
  induction l with
  | nil =>
    intro st st' h
    simp only [processComments, Except.ok.injEq] at h
    subst h
    exact ⟨[], by simp⟩
  | cons p rest ih =>
    intro st st' h
    obtain ⟨c, fresh⟩ := p
    cases hfind : findOne st.store c.commentId with
    | some existing =>
      simp only [processComments, hfind] at h
      obtain ⟨t, ht⟩ := ih _ _ h
      exact ⟨t, ht⟩
    | none =>
      simp only [processComments, hfind] at h
      by_cases hsave : saveOk c.commentId = true
      · rw [if_pos hsave] at h
        obtain ⟨t, ht⟩ := ih _ _ h
        refine
          ⟨{ videoId := vid
             commentId := c.commentId
             maskedUsername := maskUsername c.authorDisplayName
             comment := c.textDisplay
             sentiment := fresh
             month := c.month } :: t, ?_⟩
        rw [ht]
        simp
      · rw [if_neg hsave] at h
        exact absurd h (by simp)

/-- The sentiment the handler effectively counts for a comment, read off a
(final) store: the stored sentiment on a cache hit, the fresh one otherwise.
A derived view used to state loop invariants, not a source function. -/
def resolveSent (s : Store) (p : CommentItem × Sentiment) : Sentiment :=
  match findOne s p.1.commentId with
  | some e => e.sentiment
  | none => p.2

/-- The month the handler effectively counts for a comment, read off a store;
derived view analogous to `resolveSent`. -/
def resolveMonth (s : Store) (p : CommentItem × Sentiment) : Fin 12 :=
  match findOne s p.1.commentId with
  | some e => e.month
  | none => p.1.month

theorem resolveSent_of_some {s : Store} {p : CommentItem × Sentiment} {e : StoredComment}
    (h : findOne s p.1.commentId = some e) : resolveSent s p = e.sentiment := by
  simp [resolveSent, h]

theorem resolveMonth_of_some {s : Store} {p : CommentItem × Sentiment} {e : StoredComment}
    (h : findOne s p.1.commentId = some e) : resolveMonth s p = e.month := by
  simp [resolveMonth, h]

theorem processComments_characterize (vid : String) :
    ∀ (l : List (CommentItem × Sentiment)) (st st' : LoopState),
      processComments (fun _ => true) vid l st = .ok st' →
      st'.counts = l.foldl (fun acc p => acc.incr (resolveSent st'.store p)) st.counts ∧
      st'.dist = l.foldl (fun acc p => bump acc (resolveMonth st'.store p)) st.dist ∧
      ∀ p ∈ l, (findOne st'.store p.1.commentId).isSome = true := by
  intro l
  induction l with
  | nil =>
    intro st st' h
    simp only [processComments, Except.ok.injEq] at h
    subst h
    simp
  | cons p rest ih =>
    intro st st' h
    obtain ⟨c, fresh⟩ := p
    cases hfind : findOne st.store c.commentId with
    | some existing =>
      simp only [processComments, hfind] at h
      obtain ⟨hc, hd, hf⟩ := ih _ _ h
      obtain ⟨t, ht⟩ := processComments_store_extends _ vid rest _ _ h
      have hstore : st'.store = st.store ++ t := by
        simpa using ht
      have hfind' : findOne st'.store c.commentId = some existing := by
        rw [hstore]
        exact findOne_append_of_some hfind t
      refine ⟨?_, ?_, ?_⟩
      · simp only [List.foldl_cons]
        rw [resolveSent_of_some hfind']
        exact hc
      · simp only [List.foldl_cons]
        rw [resolveMonth_of_some hfind']
        exact hd
      · intro q hq
        rcases List.mem_cons.mp hq with hq | hq
        · subst hq
          simp [hfind']
        · exact hf q hq
    | none =>
      simp only [processComments, hfind, if_true] at h
      obtain ⟨hc, hd, hf⟩ := ih _ _ h
      obtain ⟨t, ht⟩ := processComments_store_extends _ vid rest _ _ h
      have hstore : st'.store = st.store ++
          ({ videoId := vid
             commentId := c.commentId
             maskedUsername := maskUsername c.authorDisplayName
             comment := c.textDisplay
             sentiment := fresh
             month := c.month } :: t) := by
        rw [ht]
        simp
      have hfind' : findOne st'.store c.commentId =
          some { videoId := vid
                 commentId := c.commentId
                 maskedUsername := maskUsername c.authorDisplayName
                 comment := c.textDisplay
                 sentiment := fresh
                 month := c.month } := by
        rw [hstore, findOne_append_of_none hfind]
        exact findOne_cons_pos (by simp)
      refine ⟨?_, ?_, ?_⟩
      · simp only [List.foldl_cons]
        rw [resolveSent_of_some hfind']
        exact hc
      · simp only [List.foldl_cons]
        rw [resolveMonth_of_some hfind']
        exact hd
      · intro q hq
        rcases List.mem_cons.mp hq with hq | hq
        · subst hq
          simp [hfind']
        · exact hf q hq

theorem processComments_all_hits (saveOk : String → Bool) (vid : String) :
    ∀ (l : List (CommentItem × Sentiment)) (st : LoopState),
      (∀ p ∈ l, (findOne st.store p.1.commentId).isSome = true) →
      processComments saveOk vid l st =
        .ok { counts := l.foldl (fun acc p => acc.incr (resolveSent st.store p)) st.counts
              dist := l.foldl (fun acc p => bump acc (resolveMonth st.store p)) st.dist
              store := st.store } := by
  intro l
  induction l with
  | nil => intro st _; rfl
  | cons p rest ih =>
    intro st hall
    obtain ⟨c, fresh⟩ := p
    have hhead := hall (c, fresh) (List.mem_cons_self _ _)
    obtain ⟨e, hfind⟩ := Option.isSome_iff_exists.mp hhead
    simp only [processComments, hfind]
    rw [ih { counts := st.counts.incr e.sentiment
             dist := bump st.dist e.month
             store := st.store }
        (fun q hq => hall q (List.mem_cons_of_mem _ hq))]
    simp only [List.foldl_cons, resolveSent_of_some hfind, resolveMonth_of_some hfind]

theorem zip_map_self {α β : Type} (g : α → β) :
    ∀ (l : List α), l.zip (l.map g) = l.map (fun a => (a, g a)) := by
  intro l
  induction l with
  | nil => rfl
  | cons a t ih => simp [ih]

theorem foldl_congr_mem {α β : Type} {f g : β → α → β} :
    ∀ (l : List α) (init : β), (∀ a ∈ l, ∀ acc, f acc a = g acc a) →
      l.foldl f init = l.foldl g init := by
  intro l
  induction l with
  | nil => intro init _; rfl
  | cons a t ih =>
    intro init h
    rw [List.foldl_cons, List.foldl_cons, h a (List.mem_cons_self _ _)]
    exact ih _ (fun b hb acc => h b (List.mem_cons_of_mem _ hb) acc)

/-- A concrete comment thread used by the concrete-instance theorems. -/
def sampleItem : CommentItem :=
  { commentId := "c1"
    textDisplay := "love it"
    authorDisplayName := "alice"
    month := (0 : Fin 12) }

/-- C2: the handler returns the explicit "No comments found" error only when
the upstream `items` field is absent; when the comment source yields an
empty comment list (`items` present but empty, which is truthy in
JavaScript), the run falls through the guard, computes `total = 0`, and the
percentage computation is evaluated at `total = 0`, producing the NaN triple
(modelled `none`) in a 200 response instead of a "no comments" outcome. -/
theorem empty_items_reach_zero_total_division :
    (∀ (classify : String → Sentiment) (saveOk : String → Bool) (vid : String) (s0 : Store),
      (analyze true none classify saveOk vid s0).response = .noComments) ∧
    (∀ (classify : String → Sentiment) (saveOk : String → Bool) (vid : String) (s0 : Store),
      (analyze true (some []) classify saveOk vid s0).response =
        .ok none 0 (sortMonths allMonths)) ∧
    percentagesOf ⟨0, 0, 0⟩ = none :=
  ⟨fun _ _ _ _ => rfl, fun _ _ _ _ => rfl, rfl⟩

theorem analyze_response_ok
    (validUrl : Bool) (items : Option (List CommentItem))
    (classify : String → Sentiment) (saveOk : String → Bool)
    (vid : String) (s0 : Store) (sa : Option (ℚ × ℚ × ℚ))
    (total : Nat) (dist : List (String × Nat)) :
    (analyze validUrl items classify saveOk vid s0).response = .ok sa total dist →
    ∃ (comments : List CommentItem) (st : LoopState),
      items = some comments ∧
      processComments saveOk vid
        (comments.zip (rateLimiterSeq (fun c => classify c.textDisplay) comments).1)
        { counts := ⟨0, 0, 0⟩, dist := allMonths, store := s0 } = .ok st ∧
      sa = percentagesOf st.counts ∧ total = st.counts.total ∧
      dist = sortMonths st.dist := by
  intro h
  unfold analyze at h
  cases validUrl with
  | false => simp at h
  | true =>
    simp only [Bool.true_eq_false, if_false] at h
    cases items with
    | none => simp at h
    | some comments =>
      dsimp only at h
      cases hp : processComments saveOk vid
          (comments.zip (rateLimiterSeq (fun c => classify c.textDisplay) comments).1)
          { counts := ⟨0, 0, 0⟩, dist := allMonths, store := s0 } with
      | error s =>
        rw [hp] at h
        simp at h
      | ok st =>
        rw [hp] at h
        simp only [Response.ok.injEq] at h
        exact ⟨comments, st, rfl, hp, h.1.symm, h.2.1.symm, h.2.2.symm⟩

/-- C7: every successful analyze response carries a distribution with exactly
the twelve canonical month keys in calendar order, with (non-negative)
natural-number values summing to `totalComments`. -/
theorem distribution_canonical_and_sums_to_total
    (validUrl : Bool) (items : Option (List CommentItem))
    (classify : String → Sentiment) (saveOk : String → Bool)
    (vid : String) (s0 : Store) (sa : Option (ℚ × ℚ × ℚ))
    (total : Nat) (dist : List (String × Nat)) :
    (analyze validUrl items classify saveOk vid s0).response = .ok sa total dist →
    dist.map Prod.fst =
      ["Jan", "Feb", "Mar", "Apr", "May", "Jun",
       "Jul", "Aug", "Sep", "Oct", "Nov", "Dec"] ∧
    dist.length = 12 ∧
    (dist.map Prod.snd).sum = total := by
  intro h
  obtain ⟨comments, st, -, hp, -, htot, hdist⟩ :=
    analyze_response_ok validUrl items classify saveOk vid s0 sa total dist h
  subst htot
  subst hdist
  refine ⟨sortMonths_fst _, sortMonths_length _, ?_⟩
  rw [sortMonths_snd]
  have hc := processComments_total saveOk vid _ _ _ hp
  have h1 : st.counts.total =
      comments.length ⊓ (rateLimiterSeq (fun c => classify c.textDisplay) comments).1.length := by
    simpa [Counts.total] using hc.1
  have h2 : distTotal st.dist =
      comments.length ⊓ (rateLimiterSeq (fun c => classify c.textDisplay) comments).1.length := by
    simpa [distTotal,
      show (List.map allMonths (List.finRange 12)).sum = 0 from rfl] using hc.2
  show distTotal st.dist = st.counts.total
  rw [h1, h2]

/-- Witness for C7: a concrete one-comment run, with the twelve keys and a
value sum of 1. -/
theorem distribution_canonical_and_sums_to_total_witness :
    (sortMonths (bump allMonths sampleItem.month)).map Prod.fst =
      ["Jan", "Feb", "Mar", "Apr", "May", "Jun",
       "Jul", "Aug", "Sep", "Oct", "Nov", "Dec"] ∧
    (sortMonths (bump allMonths sampleItem.month)).length = 12 ∧
    ((sortMonths (bump allMonths sampleItem.month)).map Prod.snd).sum = 1 :=
  distribution_canonical_and_sums_to_total true (some [sampleItem])
    (fun _ => Sentiment.agree) (fun _ => true) "v" []
    (percentagesOf ⟨1, 0, 0⟩) 1 (sortMonths (bump allMonths sampleItem.month)) rfl

theorem round_sum_bound (x y w : ℚ) (hsum : 10 * x + 10 * y + 10 * w = 1000) :
    |toFixed1 x + toFixed1 y + toFixed1 w - 100| ≤ 1 / 10 := by
  unfold toFixed1
  have h1 : |((round (10 * x) : ℤ) : ℚ) - 10 * x| ≤ 1 / 2 := by
    rw [abs_sub_comm]
    exact abs_sub_round (10 * x)
  have h2 : |((round (10 * y) : ℤ) : ℚ) - 10 * y| ≤ 1 / 2 := by
    rw [abs_sub_comm]
    exact abs_sub_round (10 * y)
  have h3 : |((round (10 * w) : ℤ) : ℚ) - 10 * w| ≤ 1 / 2 := by
    rw [abs_sub_comm]
    exact abs_sub_round (10 * w)
  set z : ℤ := round (10 * x) + round (10 * y) + round (10 * w) - 1000 with hz
  have hcast : ((z : ℤ) : ℚ) =
      (((round (10 * x) : ℤ) : ℚ) - 10 * x) + (((round (10 * y) : ℤ) : ℚ) - 10 * y) +
        (((round (10 * w) : ℤ) : ℚ) - 10 * w) := by
    push_cast [hz]
    linarith
  have hzq : |((z : ℤ) : ℚ)| ≤ 3 / 2 := by
    rw [hcast]
    calc |(((round (10 * x) : ℤ) : ℚ) - 10 * x) + (((round (10 * y) : ℤ) : ℚ) - 10 * y) +
          (((round (10 * w) : ℤ) : ℚ) - 10 * w)|
        ≤ |(((round (10 * x) : ℤ) : ℚ) - 10 * x) + (((round (10 * y) : ℤ) : ℚ) - 10 * y)| +
          |(((round (10 * w) : ℤ) : ℚ) - 10 * w)| := abs_add _ _
      _ ≤ |(((round (10 * x) : ℤ) : ℚ) - 10 * x)| + |(((round (10 * y) : ℤ) : ℚ) - 10 * y)| +
          |(((round (10 * w) : ℤ) : ℚ) - 10 * w)| := by
            have := abs_add (((round (10 * x) : ℤ) : ℚ) - 10 * x)
              (((round (10 * y) : ℤ) : ℚ) - 10 * y)
            linarith
      _ ≤ 3 / 2 := by linarith
  have hzint : |z| ≤ 1 := by
    have hlt : |((z : ℤ) : ℚ)| < 2 := lt_of_le_of_lt hzq (by norm_num)
    have : ((|z| : ℤ) : ℚ) < ((2 : ℤ) : ℚ) := by
      rw [Int.cast_abs]
      exact_mod_cast hlt
    have : |z| < 2 := by exact_mod_cast this
    omega
  have hgoal : ((round (10 * x) : ℤ) : ℚ) / 10 + ((round (10 * y) : ℤ) : ℚ) / 10 +
      ((round (10 * w) : ℤ) : ℚ) / 10 - 100 = ((z : ℤ) : ℚ) / 10 := by
    push_cast [hz]
    ring
  rw [hgoal, abs_div]
  have h10 : |(10 : ℚ)| = 10 := by norm_num
  rw [h10]
  have : |((z : ℤ) : ℚ)| ≤ 1 := by
    have : ((|z| : ℤ) : ℚ) ≤ ((1 : ℤ) : ℚ) := by exact_mod_cast hzint
    rw [Int.cast_abs] at this
    exact_mod_cast this
  linarith

theorem percentagesOf_sum_bound (c : Counts) (pa pd pn : ℚ)
    (h : percentagesOf c = some (pa, pd, pn)) : |pa + pd + pn - 100| ≤ 1 / 10 := by
  unfold percentagesOf at h
  by_cases ht : c.total = 0
  · rw [if_pos ht] at h
    exact absurd h (by simp)
  · rw [if_neg ht] at h
    simp only [Option.some.injEq, Prod.mk.injEq] at h
    obtain ⟨h1, h2, h3⟩ := h
    subst h1
    subst h2
    subst h3
    apply round_sum_bound
    have htq : ((c.total : ℕ) : ℚ) ≠ 0 := Nat.cast_ne_zero.mpr ht
    have hta : ((c.agree : ℚ) + (c.disagree : ℚ) + (c.neutral : ℚ)) = ((c.total : ℕ) : ℚ) := by
      unfold Counts.total
      push_cast
      ring
    field_simp
    linarith

/-- C8: in every classification run with a non-zero total, the three
percentages (`count / total * 100`, rounded to one decimal) sum to 100 within
0.1 — both as a fact about the percentage computation and about every
successful analyze response carrying percentage values. -/
theorem percentage_sum_within_tenth :
    (∀ (c : Counts) (pa pd pn : ℚ),
      percentagesOf c = some (pa, pd, pn) → |pa + pd + pn - 100| ≤ 1 / 10) ∧
    (∀ (validUrl : Bool) (items : Option (List CommentItem))
      (classify : String → Sentiment) (saveOk : String → Bool)
      (vid : String) (s0 : Store) (pa pd pn : ℚ) (total : Nat)
      (dist : List (String × Nat)),
      (analyze validUrl items classify saveOk vid s0).response =
        .ok (some (pa, pd, pn)) total dist →
      |pa + pd + pn - 100| ≤ 1 / 10) := by
  refine ⟨fun c pa pd pn h => percentagesOf_sum_bound c pa pd pn h, ?_⟩
  intro validUrl items classify saveOk vid s0 pa pd pn total dist h
  obtain ⟨comments, st, -, -, hsa, -, -⟩ :=
    analyze_response_ok validUrl items classify saveOk vid s0 (some (pa, pd, pn)) total dist h
  exact percentagesOf_sum_bound st.counts pa pd pn hsa.symm

/-- Witness for C8: the percentages of a 1/0/0 count are (100.0, 0.0, 0.0),
whose sum is within 0.1 of 100. -/
theorem percentage_sum_within_tenth_witness :
    |(100 : ℚ) + 0 + 0 - 100| ≤ 1 / 10 :=
  percentage_sum_within_tenth.1 ⟨1, 0, 0⟩ 100 0 0
    (by norm_num [percentagesOf, Counts.total, toFixed1, round_eq])

/-- C3 (amended): with a valid video reference, a non-empty comment list and
all store saves succeeding, analyze returns a successful AnalysisResult (for
every classification outcome — classification failures are absorbed into
sentiments by fallback before this point and never surface); a store save
failure, however, aborts the run with the catch-all server error. -/
theorem analysis_ok_when_saves_succeed
    (comments : List CommentItem) (classify : String → Sentiment)
    (vid : String) (s0 : Store) (hne : comments ≠ []) :
    ∃ (p : ℚ × ℚ × ℚ) (dist : List (String × Nat)),
      (analyze true (some comments) classify (fun _ => true) vid s0).response =
        .ok (some p) comments.length dist := by
  obtain ⟨st, hst⟩ := processComments_ok_of_saveOk vid
    (comments.zip (rateLimiterSeq (fun c => classify c.textDisplay) comments).1)
    { counts := ⟨0, 0, 0⟩, dist := allMonths, store := s0 }
  have hlen : (comments.zip (rateLimiterSeq (fun c => classify c.textDisplay) comments).1).length
      = comments.length := by
    rw [List.length_zip, rateLimiterSeq_fst, List.length_map, min_self]
  have htot : st.counts.total = comments.length := by
    have hc := (processComments_total _ vid _ _ _ hst).1
    rw [hc, hlen]
    simp [Counts.total]
  have hne0 : st.counts.total ≠ 0 := by
    rw [htot]
    intro e
    exact hne (List.length_eq_zero.mp e)
  have hsome : percentagesOf st.counts =
      some (toFixed1 ((st.counts.agree : ℚ) / (st.counts.total : ℚ) * 100),
            toFixed1 ((st.counts.disagree : ℚ) / (st.counts.total : ℚ) * 100),
            toFixed1 ((st.counts.neutral : ℚ) / (st.counts.total : ℚ) * 100)) := by
    unfold percentagesOf
    rw [if_neg hne0]
  refine ⟨(toFixed1 ((st.counts.agree : ℚ) / (st.counts.total : ℚ) * 100),
      toFixed1 ((st.counts.disagree : ℚ) / (st.counts.total : ℚ) * 100),
      toFixed1 ((st.counts.neutral : ℚ) / (st.counts.total : ℚ) * 100)),
    sortMonths st.dist, ?_⟩
  unfold analyze
  simp only [Bool.true_eq_false, if_false]
  rw [hst]
  dsimp only
  rw [hsome, htot]

/-- Witness for C3: a one-comment run with all saves succeeding produces a
successful payload with total 1. -/
theorem analysis_ok_when_saves_succeed_witness :
    ∃ (p : ℚ × ℚ × ℚ) (dist : List (String × Nat)),
      (analyze true (some [sampleItem]) (fun _ => Sentiment.neutral) (fun _ => true)
        "v" []).response = .ok (some p) [sampleItem].length dist :=
  analysis_ok_when_saves_succeed [sampleItem] (fun _ => Sentiment.neutral) "v" [] (by simp)

/-- Counterexample to C3 as stated: a run with a valid video reference and a
non-empty comment list in which the store save fails returns the 500
catch-all error — the save failure is surfaced to the caller, not
swallowed. -/
theorem save_failure_surfaces_as_server_error_cex :
    (analyze true (some [sampleItem]) (fun _ => Sentiment.neutral) (fun _ => false)
      "v" []).response = .serverError := by
  decide

/-- C1 (amended): re-running analyze on a video whose comments are all in the
Deduplication Store (as after a first run with all saves succeeding) returns
the same AnalysisResult as the first run and leaves the store unchanged —
the cached entries alone determine the result, whatever the second run's
classifier returns — but the Remote Classifier Client is still invoked for
every comment on the re-run (`classifierInvocations = comments.length`, not
zero): the handler classifies the full list before consulting the store, so
comments are not classified at most once across runs. -/
theorem warm_cache_rerun_same_result_still_classifies
    (comments : List CommentItem) (f g : String → Sentiment)
    (vid vid2 : String) (s0 : Store) :
    ((analyze true (some comments) g (fun _ => true) vid2
        (analyze true (some comments) f (fun _ => true) vid s0).finalStore).response =
      (analyze true (some comments) f (fun _ => true) vid s0).response) ∧
    ((analyze true (some comments) g (fun _ => true) vid2
        (analyze true (some comments) f (fun _ => true) vid s0).finalStore).finalStore =
      (analyze true (some comments) f (fun _ => true) vid s0).finalStore) ∧
    ((analyze true (some comments) g (fun _ => true) vid2
        (analyze true (some comments) f (fun _ => true) vid s0).finalStore).classifierInvocations =
      comments.length) := by
  obtain ⟨st1, h1⟩ := processComments_ok_of_saveOk vid
    (comments.zip (rateLimiterSeq (fun c => f c.textDisplay) comments).1)
    { counts := ⟨0, 0, 0⟩, dist := allMonths, store := s0 }
  have ha1 : analyze true (some comments) f (fun _ => true) vid s0 =
      { response := Response.ok (percentagesOf st1.counts) st1.counts.total
          (sortMonths st1.dist)
        classifierInvocations := comments.length
        finalStore := st1.store } := by
    unfold analyze
    simp only [Bool.true_eq_false, if_false]
    rw [h1]
  obtain ⟨hc1, hd1, hfound⟩ := processComments_characterize vid _ _ _ h1
  have hzl1 : comments.zip (rateLimiterSeq (fun c => f c.textDisplay) comments).1 =
      comments.map (fun c => (c, f c.textDisplay)) := by
    rw [rateLimiterSeq_fst, zip_map_self]
  have hzl2 : comments.zip (rateLimiterSeq (fun c => g c.textDisplay) comments).1 =
      comments.map (fun c => (c, g c.textDisplay)) := by
    rw [rateLimiterSeq_fst, zip_map_self]
  have hfound' : ∀ c ∈ comments, (findOne st1.store c.commentId).isSome = true := by
    intro c hc
    have : (c, f c.textDisplay) ∈
        comments.zip (rateLimiterSeq (fun c => f c.textDisplay) comments).1 := by
      rw [hzl1]
      exact List.mem_map.mpr ⟨c, hc, rfl⟩
    exact hfound (c, f c.textDisplay) this
  have hfound2 : ∀ p ∈ comments.zip (rateLimiterSeq (fun c => g c.textDisplay) comments).1,
      (findOne st1.store p.1.commentId).isSome = true := by
    intro p hp
    rw [hzl2] at hp
    obtain ⟨c, hc, rfl⟩ := List.mem_map.mp hp
    exact hfound' c hc
  have h2 := processComments_all_hits (fun _ => true) vid2
    (comments.zip (rateLimiterSeq (fun c => g c.textDisplay) comments).1)
    { counts := ⟨0, 0, 0⟩, dist := allMonths, store := st1.store } hfound2
  have hcounts : (comments.zip (rateLimiterSeq (fun c => g c.textDisplay) comments).1).foldl
      (fun acc p => acc.incr (resolveSent st1.store p)) (⟨0, 0, 0⟩ : Counts) = st1.counts := by
    rw [hc1, hzl1, hzl2, List.foldl_map, List.foldl_map]
    apply foldl_congr_mem
    intro c hc acc
    obtain ⟨e, he⟩ := Option.isSome_iff_exists.mp (hfound' c hc)
    rw [resolveSent_of_some (p := (c, g c.textDisplay)) he,
      resolveSent_of_some (p := (c, f c.textDisplay)) he]
  have hdist : (comments.zip (rateLimiterSeq (fun c => g c.textDisplay) comments).1).foldl
      (fun acc p => bump acc (resolveMonth st1.store p)) allMonths = st1.dist := by
    rw [hd1, hzl1, hzl2, List.foldl_map, List.foldl_map]
    apply foldl_congr_mem
    intro c hc acc
    obtain ⟨e, he⟩ := Option.isSome_iff_exists.mp (hfound' c hc)
    rw [resolveMonth_of_some (p := (c, g c.textDisplay)) he,
      resolveMonth_of_some (p := (c, f c.textDisplay)) he]
  have key : analyze true (some comments) g (fun _ => true) vid2 st1.store =
      { response := Response.ok (percentagesOf st1.counts) st1.counts.total
          (sortMonths st1.dist)
        classifierInvocations := comments.length
        finalStore := st1.store } := by
    unfold analyze
    simp only [Bool.true_eq_false, if_false]
    rw [h2]
    dsimp only
    rw [hcounts, hdist]
  refine ⟨?_, ?_, ?_⟩ <;> rw [ha1] <;> dsimp only <;> rw [key]

/-- Counterexample to C1 as stated: after a first run has stored the video's
only comment in the Deduplication Store (warm cache), the re-run still
performs one classifier invocation — not zero, as the claim requires. -/
theorem warm_cache_rerun_invokes_classifier_cex :
    (findOne (analyze true (some [sampleItem]) (fun _ => Sentiment.agree) (fun _ => true)
        "v" []).finalStore sampleItem.commentId).isSome = true ∧
    (analyze true (some [sampleItem]) (fun _ => Sentiment.agree) (fun _ => true) "v"
        (analyze true (some [sampleItem]) (fun _ => Sentiment.agree) (fun _ => true)
          "v" []).finalStore).classifierInvocations = 1 :=
  ⟨by decide, by decide⟩
